import Mathlib

/-!
Verification of the scope-aware lexical scanner and metrics engine of the
repository: the scripts `find_production_unwraps.py` and
`analyze_complexity.py`.  Python code is shallowly embedded as executable
Lean functions over `List String` (the file's lines) and `String`
(the file's raw contents).  Brace characters inside string literals are
written with the escapes \x7b and \x7d.
-/

namespace Ruchy

/-- ASCII word character, as matched by the regex class backslash-w. -/
def isWordChar (c : Char) : Bool :=
  (Char.ofNat 97 ≤ c && c ≤ Char.ofNat 122) ||
  (Char.ofNat 65 ≤ c && c ≤ Char.ofNat 90) ||
  (Char.ofNat 48 ≤ c && c ≤ Char.ofNat 57) || c = Char.ofNat 95

/-- ASCII whitespace, as stripped by Python str.strip and matched by backslash-s. -/
def isSpaceCh (c : Char) : Bool :=
  c = ' ' || c = '\t' || c = '\n' || c = '\x0d' || c = '\x0b' || c = '\x0c'

/-- `leadsWith pat s` is true when `pat` is an initial segment of `s`
(Python `s.startswith(pat)` at the current scan position). -/
def leadsWith : List Char → List Char → Bool
  | [], _ => true
  | _ :: _, [] => false
  | c :: cs, d :: ds => c = d && leadsWith cs ds

/-- `occursIn pat s` is substring containment, Python `pat in s`. -/
def occursIn (pat : List Char) : List Char → Bool
  | [] => leadsWith pat []
  | s@(_ :: rest) => leadsWith pat s || occursIn pat rest

/-- Python `s.strip()`: remove leading and trailing whitespace. -/
def pyStrip (s : String) : String :=
  String.mk (((s.toList.dropWhile isSpaceCh).reverse.dropWhile isSpaceCh).reverse)

/-- Net brace balance of one line: `line.count('\x7b') - line.count('\x7d')`
from `is_test_code`. -/
def braceDelta (l : String) : Int :=
  (l.toList.count '\x7b' : Int) - (l.toList.count '\x7d' : Int)

/-- A recognized test marker, from `is_test_code`:
`'#[test]' in line or '#[cfg(test)]' in line or 'fn test_' in line`. -/
def hasMarker (l : String) : Bool :=
  occursIn "#[test]".toList l.toList ||
  occursIn "#[cfg(test)]".toList l.toList ||
  occursIn "fn test_".toList l.toList

/-- The backward marker search of `is_test_code`:
`for i in range(max(0, line_num - 20), line_num)`, returning the first
index whose line contains a marker.  The second `Nat` is the number of
loop iterations left. -/
def firstMarkerAux (lines : List String) : Nat → Nat → Option Nat
  | _, 0 => none
  | i, k + 1 =>
    if hasMarker (lines.getD i "") then some i
    else firstMarkerAux lines (i + 1) k

/-- First marker index in the 20-line window before `n`, or `none`. -/
def firstMarker (lines : List String) (n : Nat) : Option Nat :=
  firstMarkerAux lines (n - 20) (n - (n - 20))

/-- The forward brace scan of `is_test_code`:
`for j in range(i, min(line_num + 1, len(lines)))`, accumulating
`brace_count += lines[j].count('\x7b') - lines[j].count('\x7d')` and
returning False as soon as `j < line_num and brace_count == 0`;
after the loop, the result is `brace_count > 0`.  The last `Nat`
argument is the number of loop iterations left. -/
def scanAux (lines : List String) (n : Nat) : Nat → Int → Nat → Bool
  | _, depth, 0 => depth > 0
  | j, depth, k + 1 =>
    let d := depth + braceDelta (lines.getD j "")
    if j < n ∧ d = 0 then false
    else scanAux lines n (j + 1) d k

/-- `is_test_code(lines, line_num)` from find_production_unwraps.py. -/
def is_test_code (lines : List String) (n : Nat) : Bool :=
  match firstMarker lines n with
  | some i => scanAux lines n i 0 (min (n + 1) lines.length - i)
  | none => false

/-- The comment skip of `find_unwraps`:
`stripped.startswith('//') or stripped.startswith('///')`. -/
def is_comment_skip (l : String) : Bool :=
  leadsWith "//".toList (pyStrip l).toList ||
  leadsWith "///".toList (pyStrip l).toList

/-- Per-line emission condition of `find_unwraps`: the line contains
`.unwrap()`, is not comment-skipped, and is not classified as test code. -/
def emit_line (lines : List String) (i : Nat) (l : String) : Bool :=
  occursIn ".unwrap()".toList l.toList && !(is_comment_skip l) &&
  !(is_test_code lines i)

/-- The `for i, line in enumerate(lines)` loop of `find_unwraps`,
collecting `(i + 1, line.strip())` for each emitted line. -/
def fuAux (lines : List String) : Nat → List String → List (Nat × String)
  | _, [] => []
  | i, l :: rest =>
    if emit_line lines i l then (i + 1, pyStrip l) :: fuAux lines (i + 1) rest
    else fuAux lines (i + 1) rest

/-- The loop body of `find_unwraps` applied to the lines of one readable file. -/
def find_unwraps_lines (lines : List String) : List (Nat × String) :=
  fuAux lines 0 lines

/-- `find_unwraps(filepath)`: a file that cannot be read contributes `[]`
(the bare `except: pass` leaves `unwraps` empty). -/
def find_unwraps (content : Option (List String)) : List (Nat × String) :=
  match content with
  | none => []
  | some lines => find_unwraps_lines lines

/-! ### Complexity scorer (analyze_complexity.py, `count_complexity_indicators`) -/

/-- Non-overlapping count of a plain (regex-metacharacter-free) pattern
`p :: ps`, as `len(re.findall(pattern, body))`: scan left to right, on a
match skip the matched characters (the `Nat` is the number of pattern
characters still to skip after the head was consumed). -/
def countSubAux (p : Char) (ps : List Char) : List Char → Nat → Nat
  | [], _ => 0
  | s@(_ :: rest), 0 =>
    if leadsWith (p :: ps) s then 1 + countSubAux p ps rest ps.length
    else countSubAux p ps rest 0
  | _ :: rest, skip + 1 => countSubAux p ps rest skip

/-- Count of non-overlapping occurrences of a literal pattern. -/
def countSub (p : Char) (ps : List Char) (s : List Char) : Nat :=
  countSubAux p ps s 0

/-- Is the head of the remaining input a word character (used for the
trailing word-boundary of a keyword pattern)? -/
def wordAt : List Char → Bool
  | [] => false
  | c :: _ => isWordChar c

/-- Non-overlapping count of a keyword pattern with word boundaries on
both sides, `len(re.findall(r'\bkw\b', body))`.  `prevW` records whether
the previous character was a word character; after a match the scan
resumes past the keyword, whose characters are all word characters. -/
def countKwAux (k : Char) (ks : List Char) : List Char → Bool → Nat → Nat
  | [], _, _ => 0
  | s@(c :: rest), prevW, 0 =>
    if !prevW && leadsWith (k :: ks) s && !(wordAt (s.drop (ks.length + 1)))
    then 1 + countKwAux k ks rest true ks.length
    else countKwAux k ks rest (isWordChar c) 0
  | _ :: rest, _, skip + 1 => countKwAux k ks rest true skip

/-- Count of word-boundary-delimited occurrences of a keyword. -/
def countKw (kw : String) (s : List Char) : Nat :=
  match kw.toList with
  | [] => 0
  | k :: ks => countKwAux k ks s false 0

/-- The per-pattern match counts of `count_complexity_indicators`, in the
source's pattern order: if, else, for, while, loop, match, arrow, question
mark, .unwrap(, .expect(, return, break, continue, and-and, or-or. -/
def indicator_counts (body : String) : List Nat :=
  let s := body.toList
  [countKw "if" s, countKw "else" s, countKw "for" s, countKw "while" s,
   countKw "loop" s, countKw "match" s,
   countSub '=' ['>'] s, countSub '?' [] s,
   countSub '.' "unwrap(".toList s, countSub '.' "expect(".toList s,
   countKw "return" s, countKw "break" s, countKw "continue" s,
   countSub '&' ['&'] s, countSub '|' ['|'] s]

/-- `count_complexity_indicators(function_body)`: base complexity 1 plus
the number of matches of each pattern. -/
def count_complexity_indicators (body : String) : Nat :=
  1 + (indicator_counts body).sum

/-! ### Scope extraction (analyze_complexity.py, `analyze_rust_file`)

The function pattern is the regex
`(pub\s+)?(async\s+)?fn\s+(\w+)[^\x7b]*\x7b((?:[^\x7b\x7d]|\x7b[^\x7b\x7d]*\x7d)*)\x7d`
applied with `re.finditer`.  Greedy matching of this particular regex is
deterministic: each quantified piece matches maximally and no successful
backtracking exists, so it is embedded as a functional scanner. -/

/-- Match `kw` followed by one or more whitespace characters (`kw\s+`),
greedily; `none` when the mandatory whitespace is absent. -/
def dropKwSp (kw : List Char) (s : List Char) : Option (List Char) :=
  if leadsWith kw s then
    match s.drop kw.length with
    | c :: rest => if isSpaceCh c then some (rest.dropWhile isSpaceCh) else none
    | [] => none
  else none

/-- Optional group `(kw\s+)?`: consume it when it matches, else leave `s`. -/
def optKw (kw : List Char) (s : List Char) : List Char :=
  match dropKwSp kw s with
  | some r => r
  | none => s

/-- One `\x7b[^\x7b\x7d]*\x7d` unit: after an opening brace, the run of
non-brace characters, then the mandatory closing brace. -/
def innerUnit (s : List Char) : Option (List Char × List Char) :=
  let mid := s.takeWhile (fun c => c ≠ '\x7b' && c ≠ '\x7d')
  match s.drop mid.length with
  | '\x7d' :: r2 => some (mid, r2)
  | _ => none

/-- The greedy body `(?:[^\x7b\x7d]|\x7b[^\x7b\x7d]*\x7d)*`: returns the
matched body text and the remaining input at which the loop stopped.
`fuel` bounds recursion; it is instantiated at the input length, which
the consumption of at least one character per step never exhausts. -/
def parseBody : Nat → List Char → List Char × List Char
  | 0, s => ([], s)
  | _ + 1, [] => ([], [])
  | fuel + 1, s@(c :: rest) =>
    if c = '\x7d' then ([], s)
    else if c = '\x7b' then
      match innerUnit rest with
      | some (mid, r2) =>
        let br := parseBody fuel r2
        (c :: mid ++ '\x7d' :: br.1, br.2)
      | none => ([], s)
    else
      let br := parseBody fuel rest
      (c :: br.1, br.2)

/-- Attempt the function regex at the current position; on success return
the captured name, captured body and the input remaining after the match. -/
def matchFrom (fuel : Nat) (s : List Char) : Option (List Char × List Char × List Char) :=
  let s1 := optKw "pub".toList s
  let s2 := optKw "async".toList s1
  match dropKwSp "fn".toList s2 with
  | none => none
  | some s3 =>
    let name := s3.takeWhile isWordChar
    if name = [] then none
    else
      let s4 := s3.drop name.length
      let s5 := s4.dropWhile (fun c => c ≠ '\x7b')
      match s5 with
      | '\x7b' :: s6 =>
        let br := parseBody fuel s6
        match br.2 with
        | '\x7d' :: rest2 => some (name, br.1, rest2)
        | _ => none
      | _ => none

/-- `re.finditer` over the whole text: try the pattern at each position,
resume after the end of every non-overlapping match.  `fuel` bounds the
scan and is instantiated above the input length. -/
def extractFns : Nat → List Char → List (List Char × List Char)
  | 0, _ => []
  | _ + 1, [] => []
  | fuel + 1, s@(_ :: rest) =>
    match matchFrom fuel s with
    | some (name, body, r) => (name, body) :: extractFns fuel r
    | none => extractFns fuel rest

/-- `analyze_rust_file`: every regex-extracted function whose name does not
begin with `test_` and whose complexity exceeds 10 yields
`(fn_name, complexity, filepath)`. -/
def analyze_rust_file (content : String) (filepath : String) : List (String × Nat × String) :=
  (extractFns (content.length + 1) content.toList).filterMap fun nb =>
    if leadsWith "test_".toList nb.1 then none
    else
      let c := count_complexity_indicators (String.mk nb.2)
      if 10 < c then some (String.mk nb.1, c, filepath) else none

/-! ### Aggregation and report ordering

Python's `list.sort` / `sorted` is a stable sort; with `reverse=True` or a
negated key it is a stable descending sort by the key.  A stable sort by a
given key is unique as a function of the input list, so it is embedded as
a stable insertion sort. -/

/-- Insert `x` into a descending-sorted list, after every element whose key
is at least `key x` (the placement a stable descending sort gives to an
element arriving later than the list's elements). -/
def insertDesc (key : α → Nat) (x : α) : List α → List α
  | [] => [x]
  | y :: ys =>
    if key x < key y then y :: insertDesc key x ys
    else x :: y :: ys

/-- Stable descending sort by `key`, modelling Python `sort(key=..., reverse=True)`
and `sorted(..., key=lambda x: -...)`. -/
def sortDesc (key : α → Nat) : List α → List α
  | [] => []
  | x :: xs => insertDesc key x (sortDesc key xs)

/-- First occurrences of the elements of a list, in encounter order:
the key order of a Python dict populated left to right. -/
def firstSeen : List String → List String
  | [] => []
  | x :: xs => x :: (firstSeen xs).filter (fun y => y ≠ x)

/-- The `by_file` defaultdict of analyze_complexity.py: file paths in first
insertion order, each with its `(fn_name, complexity)` pairs in list order. -/
def by_file (hc : List (String × Nat × String)) : List (String × List (String × Nat)) :=
  (firstSeen (hc.map (fun x => x.2.2))).map fun f =>
    (f, (hc.filter (fun x => x.2.2 = f)).map (fun x => (x.1, x.2.1)))

/-- `file_complexities`: `(f, sum of complexities, number of functions)`
per file of `by_file`. -/
def file_complexities (hc : List (String × Nat × String)) : List (String × Nat × Nat) :=
  (by_file hc).map fun p => (p.1, (p.2.map (fun q => q.2)).sum, p.2.length)

/-- `file_complexities.sort(key=lambda x: x[1], reverse=True)`. -/
def sorted_file_complexities (hc : List (String × Nat × String)) : List (String × Nat × Nat) :=
  sortDesc (fun x => x.2.1) (file_complexities hc)

/-! ### Run drivers -/

/-- The per-file loop of find_production_unwraps.py `main`: files whose
`find_unwraps` result is nonempty enter `production_unwraps` in encounter
order.  A file's content is `none` when reading it raises. -/
def unwrap_run (files : List (String × Option (List String))) : List (String × List (Nat × String)) :=
  files.filterMap fun p =>
    let u := find_unwraps p.2
    if u = [] then none else some (p.1, u)

/-- The report of `main`: `sorted(production_unwraps.items(), key=lambda x: -len(x[1]))[:10]`. -/
def unwrap_main (files : List (String × Option (List String))) : List (String × List (Nat × String)) :=
  (sortDesc (fun p => p.2.length) (unwrap_run files)).take 10

/-- The file walk of analyze_complexity.py: `analyze_rust_file` opens each
file with no exception handler, so an unreadable file (content `none`)
propagates and aborts the whole run. -/
def complexity_collect : List (String × Option String) → Except Unit (List (String × Nat × String))
  | [] => .ok []
  | (_, none) :: _ => .error ()
  | (p, some c) :: rest =>
    match complexity_collect rest with
    | .error e => .error e
    | .ok l => .ok (analyze_rust_file c p ++ l)

/-- The full report of analyze_complexity.py: the collected functions sorted
descending by complexity (top 20 shown), and the per-file totals built from
that sorted list, sorted descending by total (top 10 shown). -/
def complexity_main (files : List (String × Option String)) :
    Except Unit (List (String × Nat × String) × List (String × Nat × Nat)) :=
  match complexity_collect files with
  | .error e => .error e
  | .ok hc =>
    let hcSorted := sortDesc (fun x => x.2.1) hc
    .ok (hcSorted.take 20, (sortDesc (fun x => x.2.1) (file_complexities hcSorted)).take 10)

/-! ### The spec's delimiter-depth scope rule

Modelled from the spec: the Delimiter-Depth Scanner contract (spec section 4.1)
is not implemented as stated by analyze_complexity.py (which uses the regex
above); the rule itself is embedded here for comparison.  Depth starts with
the delimiters counted on the signature line itself and the scope ends at the
first line at which the running depth returns to the pre-scope value. -/

/-- Modelled from the spec: one step of the depth rule; `j` is the current
line, `d` the running depth, the last `Nat` the lines left before
end of file. -/
def depthReturnAux (lines : List String) : Nat → Int → Nat → Option Nat
  | _, _, 0 => none
  | j, d, k + 1 =>
    let d2 := d + braceDelta (lines.getD j "")
    if d2 = 0 then some j else depthReturnAux lines (j + 1) d2 k

/-- Modelled from the spec: the scope-end line for the scope opening at
line `m`, or `none` when depth never returns (unterminated scope). -/
def scopeEndSpec (lines : List String) (m : Nat) : Option Nat :=
  depthReturnAux lines m 0 (lines.length - m)

/-- Cumulative depth helper for stating properties of `scanAux`:
`sumDelta lines j k` is the sum of `braceDelta` over lines `j, …, j+k-1`. -/
def sumDelta (lines : List String) (j : Nat) : Nat → Int
  | 0 => 0
  | k + 1 => sumDelta lines j k + braceDelta (lines.getD (j + k) "")

/-! ### Lemmas about the stable descending sort -/

theorem mem_insertDesc (key : α → Nat) (x z : α) :
    ∀ s : List α, z ∈ insertDesc key x s ↔ z = x ∨ z ∈ s := by
  intro s
  induction s with
  | nil => simp [insertDesc]
  | cons y ys ih =>
    simp only [insertDesc]
    split
    · simp only [List.mem_cons, ih]
      tauto
    · simp only [List.mem_cons]

theorem pairwise_insertDesc (key : α → Nat) (x : α) :
    ∀ s : List α, List.Pairwise (fun a b => key b ≤ key a) s →
      List.Pairwise (fun a b => key b ≤ key a) (insertDesc key x s) := by
  intro s
  induction s with
  | nil => intro _; simp [insertDesc]
  | cons y ys ih =>
    intro h
    rw [List.pairwise_cons] at h
    simp only [insertDesc]
    split
    · rw [List.pairwise_cons]
      refine ⟨?_, ih h.2⟩
      intro z hz
      rcases (mem_insertDesc key x z ys).mp hz with rfl | hz2
      · omega
      · exact h.1 z hz2
    · rw [List.pairwise_cons]
      refine ⟨?_, List.pairwise_cons.mpr h⟩
      intro z hz
      rcases List.mem_cons.mp hz with rfl | hz2
      · omega
      · have := h.1 z hz2
        omega

theorem pairwise_sortDesc (key : α → Nat) :
    ∀ l : List α, List.Pairwise (fun a b => key b ≤ key a) (sortDesc key l) := by
  intro l
  induction l with
  | nil => simp [sortDesc]
  | cons x xs ih => exact pairwise_insertDesc key x _ ih

theorem filter_insertDesc (key : α → Nat) (x : α) (k : Nat) :
    ∀ s : List α, (insertDesc key x s).filter (fun z => key z == k) =
      if key x = k then x :: s.filter (fun z => key z == k)
      else s.filter (fun z => key z == k) := by
  intro s
  induction s with
  | nil =>
    simp only [insertDesc, List.filter_cons, List.filter_nil]
    by_cases hx : key x = k <;> simp [hx]
  | cons y ys ih =>
    simp only [insertDesc]
    split
    · rename_i hlt
      simp only [List.filter_cons, ih]
      by_cases hy : key y = k
      · have hx : ¬ key x = k := by omega
        simp [hy, hx]
      · by_cases hx : key x = k <;> simp [hy, hx]
    · simp only [List.filter_cons]
      by_cases hx : key x = k <;> simp [hx]

theorem filter_sortDesc (key : α → Nat) (k : Nat) :
    ∀ l : List α, (sortDesc key l).filter (fun z => key z == k) =
      l.filter (fun z => key z == k) := by
  intro l
  induction l with
  | nil => rfl
  | cons x xs ih =>
    simp only [sortDesc, filter_insertDesc, ih, List.filter_cons]
    by_cases hx : key x = k <;> simp [hx]

/-! ### Lemmas about the unwrap emitter -/

theorem mem_fuAux (lines : List String) :
    ∀ (rem : List String) (i : Nat) (p : Nat × String),
      p ∈ fuAux lines i rem ↔
        ∃ j, j < rem.length ∧ p.1 = i + j + 1 ∧
          p.2 = pyStrip (rem.getD j "") ∧ emit_line lines (i + j) (rem.getD j "") = true := by
  intro rem
  induction rem with
  | nil => intro i p; simp [fuAux]
  | cons l rest ih =>
    intro i p
    simp only [fuAux]
    constructor
    · intro hp
      split at hp
      · rcases List.mem_cons.mp hp with rfl | hp2
        · exact ⟨0, by simp only [List.length_cons]; omega, by simp,
            by simp only [List.getD_cons_zero], by simpa using ‹_›⟩
        · rcases (ih (i + 1) p).mp hp2 with ⟨j, hj, h1, h2, h3⟩
          refine ⟨j + 1, by simp only [List.length_cons]; omega, by omega, ?_, ?_⟩
          · simpa only [List.getD_cons_succ] using h2
          · have hsh : i + 1 + j = i + (j + 1) := by omega
            rw [hsh] at h3
            simpa only [List.getD_cons_succ] using h3
      · rcases (ih (i + 1) p).mp hp with ⟨j, hj, h1, h2, h3⟩
        refine ⟨j + 1, by simp only [List.length_cons]; omega, by omega, ?_, ?_⟩
        · simpa only [List.getD_cons_succ] using h2
        · have hsh : i + 1 + j = i + (j + 1) := by omega
          rw [hsh] at h3
          simpa only [List.getD_cons_succ] using h3
    · rintro ⟨j, hj, h1, h2, h3⟩
      match j with
      | 0 =>
        simp only [List.getD_cons_zero, Nat.add_zero] at h2 h3
        split
        · refine List.mem_cons.mpr (Or.inl ?_)
          obtain ⟨p1, p2⟩ := p
          simp only [Prod.mk.injEq]
          constructor
          · simpa using h1
          · simpa using h2
        · simp_all
      | j' + 1 =>
        have hmem : p ∈ fuAux lines (i + 1) rest := by
          apply (ih (i + 1) p).mpr
          refine ⟨j', by simp only [List.length_cons] at hj; omega, by omega, ?_, ?_⟩
          · simpa only [List.getD_cons_succ] using h2
          · have hsh : i + (j' + 1) = i + 1 + j' := by omega
            rw [hsh] at h3
            simpa only [List.getD_cons_succ] using h3
        split
        · exact List.mem_cons.mpr (Or.inr hmem)
        · exact hmem

theorem mem_find_unwraps_lines (lines : List String) (p : Nat × String) :
    p ∈ find_unwraps_lines lines ↔
      ∃ j, j < lines.length ∧ p.1 = j + 1 ∧
        p.2 = pyStrip (lines.getD j "") ∧ emit_line lines j (lines.getD j "") = true := by
  have := mem_fuAux lines lines 0 p
  simpa [find_unwraps_lines] using this

/-! ### Lemmas about the marker search and the forward brace scan -/

theorem firstMarkerAux_none (lines : List String) :
    ∀ (k i : Nat), (∀ t, t < k → hasMarker (lines.getD (i + t) "") = false) →
      firstMarkerAux lines i k = none := by
  intro k
  induction k with
  | zero => intro i _; rfl
  | succ k ih =>
    intro i h
    have h0 : hasMarker (lines.getD i "") = false := by
      simpa using h 0 (by omega)
    simp only [firstMarkerAux, h0]
    simp only [Bool.false_eq_true, if_false]
    apply ih
    intro t ht
    have := h (t + 1) (by omega)
    simpa [Nat.add_assoc, Nat.add_comm 1 t] using this

theorem firstMarkerAux_some_range (lines : List String) :
    ∀ (k i m : Nat), firstMarkerAux lines i k = some m → i ≤ m ∧ m < i + k := by
  intro k
  induction k with
  | zero => intro i m h; simp [firstMarkerAux] at h
  | succ k ih =>
    intro i m h
    simp only [firstMarkerAux] at h
    split at h
    · cases h
      omega
    · have := ih (i + 1) m h
      omega

theorem firstMarkerAux_congr (l1 l2 : List String) :
    ∀ (k i : Nat), (∀ t, t < k → l1.getD (i + t) "" = l2.getD (i + t) "") →
      firstMarkerAux l1 i k = firstMarkerAux l2 i k := by
  intro k
  induction k with
  | zero => intro i _; rfl
  | succ k ih =>
    intro i h
    have h0 : l1.getD i "" = l2.getD i "" := by simpa using h 0 (by omega)
    simp only [firstMarkerAux, h0]
    split
    · rfl
    · apply ih
      intro t ht
      have := h (t + 1) (by omega)
      simpa [Nat.add_assoc, Nat.add_comm 1 t] using this

theorem scanAux_congr (l1 l2 : List String) (n : Nat) :
    ∀ (k j : Nat) (d : Int), (∀ t, t < k → l1.getD (j + t) "" = l2.getD (j + t) "") →
      scanAux l1 n j d k = scanAux l2 n j d k := by
  intro k
  induction k with
  | zero => intro j d _; rfl
  | succ k ih =>
    intro j d h
    have h0 : l1.getD j "" = l2.getD j "" := by simpa using h 0 (by omega)
    simp only [scanAux, h0]
    split
    · rfl
    · apply ih
      intro t ht
      have := h (t + 1) (by omega)
      simpa [Nat.add_assoc, Nat.add_comm 1 t] using this

theorem sumDelta_succ_front (lines : List String) :
    ∀ (k j : Nat), sumDelta lines j (k + 1) =
      braceDelta (lines.getD j "") + sumDelta lines (j + 1) k := by
  intro k
  induction k with
  | zero => intro j; simp [sumDelta]
  | succ k ih =>
    intro j
    have hidx : j + (k + 1) = j + 1 + k := by omega
    calc sumDelta lines j (k + 1 + 1)
        = sumDelta lines j (k + 1) + braceDelta (lines.getD (j + (k + 1)) "") := rfl
      _ = braceDelta (lines.getD j "") + sumDelta lines (j + 1) k +
            braceDelta (lines.getD (j + 1 + k) "") := by rw [ih, hidx]
      _ = braceDelta (lines.getD j "") + sumDelta lines (j + 1) (k + 1) := by
            simp only [sumDelta]
            ring

/-- Characterization of the forward brace scan of `is_test_code`: it succeeds
iff the cumulative depth never returns to zero at a scanned line before `n`
and is positive after the last scanned line. -/
theorem scanAux_iff (lines : List String) (n : Nat) :
    ∀ (k j : Nat) (d : Int), scanAux lines n j d k = true ↔
      ((∀ t, t < k → j + t < n → d + sumDelta lines j (t + 1) ≠ 0) ∧
        0 < d + sumDelta lines j k) := by
  intro k
  induction k with
  | zero =>
    intro j d
    simp [scanAux, sumDelta]
  | succ k ih =>
    intro j d
    have hs1 : sumDelta lines j 1 = braceDelta (lines.getD j "") := by
      simp [sumDelta]
    simp only [scanAux]
    split
    · rename_i hcond
      simp only [Bool.false_eq_true, false_iff]
      rintro ⟨hall, -⟩
      apply hall 0 (by omega) (by omega)
      rw [hs1]
      omega
    · rename_i hcond
      rw [ih (j + 1) (d + braceDelta (lines.getD j ""))]
      constructor
      · rintro ⟨hall, hpos⟩
        constructor
        · intro t ht hjt
          match t with
          | 0 =>
            intro hz
            rw [hs1] at hz
            exact absurd ⟨by omega, by omega⟩ hcond
          | t' + 1 =>
            intro hz
            rw [sumDelta_succ_front lines (t' + 1) j] at hz
            exact hall t' (by omega) (by omega) (by omega)
        · rw [sumDelta_succ_front lines k j]
          omega
      · rintro ⟨hall, hpos⟩
        constructor
        · intro t ht hjt hz
          have h2 := hall (t + 1) (by omega) (by omega)
          apply h2
          rw [sumDelta_succ_front lines (t + 1) j]
          omega
        · rw [sumDelta_succ_front lines k j] at hpos
          omega

theorem is_test_code_none (lines : List String) (n : Nat)
    (h : firstMarker lines n = none) : is_test_code lines n = false := by
  unfold is_test_code
  rw [h]

theorem is_test_code_some (lines : List String) (n m : Nat)
    (h : firstMarker lines n = some m) :
    is_test_code lines n = scanAux lines n m 0 (min (n + 1) lines.length - m) := by
  unfold is_test_code
  rw [h]

/-! ### Claim theorems -/

/-- Claim C1: the spec states that a `.unwrap()` line within the still-open
scope of a recognized test marker is classified Test and excluded from the
findings.  The code violates this: starting its forward brace scan at the
marker line itself, the scan sees depth 0 on a braceless `#[test]` attribute
line and immediately concludes the scope has closed, so the unwrap inside
the standard test layout is classified Production and emitted. -/
theorem c1_attribute_marker_misclassified :
    is_test_code ["#[test]", "fn test_a() \x7b", "    x.unwrap();", "\x7d"] 2 = false ∧
    find_unwraps_lines ["#[test]", "fn test_a() \x7b", "    x.unwrap();", "\x7d"] =
      [(3, "x.unwrap();")] := by decide

/-- Claim C2 (counterexample): the complexity analyzer's scope extraction does
not follow the line-depth rule.  Its regex body admits at most one level of
brace nesting, so for a function whose body nests two levels deep it finds no
scope at all, while the spec's depth rule yields end line index 6. -/
theorem c2_regex_misses_nested_scope :
    extractFns
      ("fn f() \x7b\n    if a \x7b\n        if b \x7b\n            1\n        \x7d\n    \x7d\n\x7d".length + 1)
      "fn f() \x7b\n    if a \x7b\n        if b \x7b\n            1\n        \x7d\n    \x7d\n\x7d".toList = [] ∧
    scopeEndSpec ["fn f() \x7b", "    if a \x7b", "        if b \x7b", "            1",
      "        \x7d", "    \x7d", "\x7d"] 0 = some 6 := by decide

/-- Claim C2 (amended): only the classifier's forward confirmation scan
follows the depth rule.  When the cumulative depth from the first marker
line `m` stays positive strictly before `e` and returns to the pre-scope
value at line `e`, a line `n` is classified Test exactly when `n < e`. -/
theorem c2_classifier_depth_rule :
    ∀ (lines : List String) (n m e : Nat),
      firstMarker lines n = some m →
      n < lines.length →
      (∀ t, m + t < e → 0 < sumDelta lines m (t + 1)) →
      sumDelta lines m (e - m + 1) = 0 →
      m ≤ e →
      (is_test_code lines n = true ↔ n < e) := by
  intro lines n m e hfm hn hpos hend hme
  obtain ⟨hm1, hm2⟩ := firstMarkerAux_some_range lines _ _ _ hfm
  have hmn : m < n := by omega
  have hmin : min (n + 1) lines.length = n + 1 := by omega
  rw [is_test_code_some lines n m hfm, hmin, scanAux_iff lines n (n + 1 - m) m 0]
  constructor
  · rintro ⟨hall, hp⟩
    by_contra hne
    rcases Nat.lt_or_ge e n with hlt | hge
    · exact hall (e - m) (by omega) (by omega) (by omega)
    · have hen : e = n := by omega
      have hq : n + 1 - m = e - m + 1 := by omega
      rw [hq] at hp
      omega
  · intro hne
    constructor
    · intro t ht hmt hz
      have := hpos t (by omega)
      omega
    · have := hpos (n - m) (by omega)
      have hq : n + 1 - m = n - m + 1 := by omega
      rw [hq]
      omega

/-- Claim C2 (witness): the amended depth-rule characterization applied to a
concrete marked scope whose brace opens on the marker line. -/
theorem c2_classifier_depth_rule_check :
    is_test_code ["fn test_a() \x7b", "    x.unwrap();", "\x7d"] 1 = true :=
  (c2_classifier_depth_rule ["fn test_a() \x7b", "    x.unwrap();", "\x7d"] 1 0 2
    (by decide) (by decide)
    (by
      intro t ht
      have h2 : t = 0 ∨ t = 1 := by omega
      rcases h2 with rfl | rfl <;> decide)
    (by decide) (by omega)).mpr (by omega)

/-- Claim C3: the complexity score is `1` plus the per-pattern match counts,
hence always at least `1`, and exactly `1` when every pattern has zero
occurrences in the scope text. -/
theorem c3_score_at_least_one :
    ∀ body : String,
      1 ≤ count_complexity_indicators body ∧
      ((∀ c ∈ indicator_counts body, c = 0) → count_complexity_indicators body = 1) := by
  intro body
  constructor
  · exact Nat.le_add_right 1 _
  · intro h
    unfold count_complexity_indicators
    rw [List.sum_eq_zero h]
    rfl

/-- Claim C3 (witness): the score of a scope body with no indicators. -/
theorem c3_score_at_least_one_check :
    1 ≤ count_complexity_indicators "x" ∧ count_complexity_indicators "x" = 1 :=
  ⟨(c3_score_at_least_one "x").1, (c3_score_at_least_one "x").2 (by decide)⟩

/-- Claim C4: when no line of the 20-line backward window carries a marker
the line is classified Production, and consequently a non-comment line
containing `.unwrap()` in a file with no marker anywhere is emitted as a
finding with its one-based line number and stripped text. -/
theorem c4_unmarked_is_production :
    (∀ (lines : List String) (n : Nat),
      (∀ t, n - 20 ≤ t → t < n → hasMarker (lines.getD t "") = false) →
      is_test_code lines n = false) ∧
    (∀ (lines : List String) (j : Nat), j < lines.length →
      (∀ t, t < lines.length → hasMarker (lines.getD t "") = false) →
      occursIn ".unwrap()".toList (lines.getD j "").toList = true →
      is_comment_skip (lines.getD j "") = false →
      (j + 1, pyStrip (lines.getD j "")) ∈ find_unwraps_lines lines) := by
  constructor
  · intro lines n h
    have hnone : firstMarker lines n = none := by
      apply firstMarkerAux_none
      intro t ht
      exact h (n - 20 + t) (by omega) (by omega)
    exact is_test_code_none lines n hnone
  · intro lines j hj hnm hocc hcmt
    have htest : is_test_code lines j = false := by
      have hnone : firstMarker lines j = none := by
        apply firstMarkerAux_none
        intro t ht
        exact hnm (j - 20 + t) (by omega)
      exact is_test_code_none lines j hnone
    apply (mem_find_unwraps_lines lines _).mpr
    refine ⟨j, hj, rfl, rfl, ?_⟩
    simp only [emit_line]
    rw [hocc, hcmt, htest]
    rfl

/-- Claim C4 (witness): a marker-free one-line file with an unwrap call. -/
theorem c4_unmarked_is_production_check :
    is_test_code ["let x = y.unwrap();"] 0 = false ∧
    (0 + 1, pyStrip ((["let x = y.unwrap();"] : List String).getD 0 "")) ∈
      find_unwraps_lines ["let x = y.unwrap();"] := by
  constructor
  · exact c4_unmarked_is_production.1 ["let x = y.unwrap();"] 0 (by intro t h1 h2; omega)
  · exact c4_unmarked_is_production.2 ["let x = y.unwrap();"] 0 (by decide)
      (by
        intro t ht
        simp only [List.length_cons, List.length_nil] at ht
        have h0 : t = 0 := by omega
        subst h0
        decide)
      (by decide) (by decide)

/-- Claim C5 (counterexample): a line whose only `.unwrap()` match lies after
`//` on the same line is still emitted, because the code only tests whether
the stripped line starts with a comment marker.  The second conjunct shows
the text before the comment marker contains no match. -/
theorem c5_midline_comment_emitted :
    find_unwraps_lines ["let a = 1; // b.unwrap()"] = [(1, "let a = 1; // b.unwrap()")] ∧
    occursIn ".unwrap()".toList "let a = 1; ".toList = false := by decide

/-- Claim C5 (amended): a line's match is emitted iff the line contains the
risky substring, its stripped text does not start with a comment marker
(the position of `//` relative to the match is not examined), and the line
is not classified as test code. -/
theorem c5_emission_rule :
    ∀ (lines : List String) (j : Nat), j < lines.length →
      ((j + 1, pyStrip (lines.getD j "")) ∈ find_unwraps_lines lines ↔
        (occursIn ".unwrap()".toList (lines.getD j "").toList = true ∧
         is_comment_skip (lines.getD j "") = false ∧
         is_test_code lines j = false)) := by
  intro lines j hj
  rw [mem_find_unwraps_lines]
  constructor
  · rintro ⟨j2, hj2, h1, h2, h3⟩
    have hjj : j2 = j := by omega
    subst hjj
    simp only [emit_line, Bool.and_eq_true, Bool.not_eq_true'] at h3
    exact ⟨h3.1.1, h3.1.2, h3.2⟩
  · rintro ⟨h1, h2, h3⟩
    refine ⟨j, hj, rfl, rfl, ?_⟩
    simp only [emit_line]
    rw [h1, h2, h3]
    rfl

/-- Claim C5 (witness): the amended emission rule at a plain unwrap line. -/
theorem c5_emission_rule_check :
    (0 + 1, pyStrip ((["x.unwrap()"] : List String).getD 0 "")) ∈
      find_unwraps_lines ["x.unwrap()"] :=
  (c5_emission_rule ["x.unwrap()"] 0 (by decide)).mpr ⟨by decide, by decide, by decide⟩

/-- Claim C6 (counterexample): in the complexity analyzer a file read failure
is not isolated: the run aborts and the remaining readable file contributes
nothing, contradicting the claim that no read failure aborts the run. -/
theorem c6_complexity_abort :
    complexity_main [("a.rs", none), ("b.rs", some "fn f() \x7b \x7d")] = .error () := rfl

/-- Claim C6 (amended): only the unwrap finder isolates read failures — an
unreadable file contributes nothing and the rest of the run is unchanged
(and no count of skipped files is surfaced anywhere); the complexity
analyzer instead aborts the whole run on any unreadable file. -/
theorem c6_read_failure_behavior :
    (∀ (a b : List (String × Option (List String))) (p : String),
      unwrap_run (a ++ (p, none) :: b) = unwrap_run (a ++ b)) ∧
    (∀ (x y : List (String × Option String)) (q : String),
      complexity_collect (x ++ (q, none) :: y) = .error ()) := by
  constructor
  · intro a b p
    simp [unwrap_run, List.filterMap_append, List.filterMap_cons, find_unwraps]
  · intro x y q
    induction x with
    | nil => rfl
    | cons hd tl ih =>
      obtain ⟨hp, hc⟩ := hd
      match hc with
      | none => rfl
      | some c =>
        have ih2 : complexity_collect (tl.append ((q, none) :: y)) = Except.error () := ih
        simp only [List.cons_append, complexity_collect, ih2, ih]

/-- Claim C7 (counterexample): two files with equal totals 12 are reported in
first-seen order even though the second has the greater finding count, so
ties in total are not broken by count. -/
theorem c7_tie_not_broken_by_count :
    sorted_file_complexities [("f", 12, "a.rs"), ("g", 6, "b.rs"), ("h", 6, "b.rs")] =
      [("a.rs", 12, 1), ("b.rs", 12, 2)] ∧ (1 : Nat) < 2 := by decide

/-- Claim C7 (amended): the file-level view is ordered descending by per-file
total, and entries with equal totals keep their first-seen order (the filter
characterization of a stable sort); the finding count is not consulted. -/
theorem c7_file_ranking :
    ∀ hc : List (String × Nat × String),
      List.Pairwise (fun a b => b.2.1 ≤ a.2.1) (sorted_file_complexities hc) ∧
      ∀ k : Nat, (sorted_file_complexities hc).filter (fun x => x.2.1 == k) =
        (file_complexities hc).filter (fun x => x.2.1 == k) := by
  intro hc
  exact ⟨pairwise_sortDesc _ _, fun k => filter_sortDesc _ k _⟩

/-- Claim C8: the pipeline is a pure function of the input files, so two runs
over the same files yield identical reports, and every ranked list is a
stable sort of its first-seen sequence: entries with equal keys appear in
first-seen order. -/
theorem c8_pipeline_deterministic :
    (∀ files : List (String × Option (List String)), unwrap_main files = unwrap_main files) ∧
    (∀ files : List (String × Option String), complexity_main files = complexity_main files) ∧
    (∀ (l : List (String × Nat × String)) (k : Nat),
      (sortDesc (fun x => x.2.1) l).filter (fun x => x.2.1 == k) =
        l.filter (fun x => x.2.1 == k)) ∧
    (∀ (l : List (String × List (Nat × String))) (k : Nat),
      (sortDesc (fun p => p.2.length) l).filter (fun p => p.2.length == k) =
        l.filter (fun p => p.2.length == k)) :=
  ⟨fun _ => rfl, fun _ => rfl, fun l k => filter_sortDesc _ k l, fun l k => filter_sortDesc _ k l⟩

/-- Claim C9: on the one-line file `fn f() ... if ... else ...` the regex
extraction captures function `f` with its body, and the scorer gives
`1 + 1 (if) + 1 (else) = 3`. -/
theorem c9_if_else_scores_three :
    extractFns ("fn f() \x7b if a \x7b 1 \x7d else \x7b 2 \x7d \x7d".length + 1)
        "fn f() \x7b if a \x7b 1 \x7d else \x7b 2 \x7d \x7d".toList =
      [("f".toList, " if a \x7b 1 \x7d else \x7b 2 \x7d ".toList)] ∧
    count_complexity_indicators " if a \x7b 1 \x7d else \x7b 2 \x7d " = 3 := by decide

/-- Claim C10: the classification of line `n` reads only lines
`n - 20` through `n`: two files of sufficient length agreeing on that window
classify `n` identically, so no later line can change the result. -/
theorem c10_window_locality :
    ∀ (l1 l2 : List String) (n : Nat),
      n < l1.length → n < l2.length →
      (∀ j, n - 20 ≤ j → j ≤ n → l1.getD j "" = l2.getD j "") →
      is_test_code l1 n = is_test_code l2 n := by
  intro l1 l2 n h1 h2 hw
  have hfm : firstMarker l1 n = firstMarker l2 n := by
    apply firstMarkerAux_congr
    intro t ht
    apply hw <;> omega
  cases hm : firstMarker l2 n with
  | none => rw [is_test_code_none l1 n (hfm.trans hm), is_test_code_none l2 n hm]
  | some m =>
    rw [is_test_code_some l1 n m (hfm.trans hm), is_test_code_some l2 n m hm]
    obtain ⟨hr1, hr2⟩ := firstMarkerAux_some_range l2 _ _ _ hm
    have hmin1 : min (n + 1) l1.length = n + 1 := by omega
    have hmin2 : min (n + 1) l2.length = n + 1 := by omega
    rw [hmin1, hmin2]
    apply scanAux_congr
    intro t ht
    apply hw <;> omega

/-- Claim C10 (witness): appending a line after `n` does not change the
classification. -/
theorem c10_window_locality_check :
    is_test_code ["a.unwrap()"] 0 = is_test_code ["a.unwrap()", "zzz"] 0 :=
  c10_window_locality ["a.unwrap()"] ["a.unwrap()", "zzz"] 0 (by decide) (by decide)
    (by
      intro j hj1 hj2
      have h0 : j = 0 := by omega
      subst h0
      rfl)

end Ruchy
